import Mathlib

/-!
Shallow embedding of the perma-blob core: the block scanner
(src/blob-monitor/block-processor.ts), the monitor loop
(src/blob-monitor/monitor.ts, first variant, lines 1-186), and the
REST-based blob fetcher (src/blob-fetcher/fetcher.ts, given as
src/unnamed/part_000).  Machine integers (TS bigint / number) are
modelled as Int / Nat; fallible code returns Except; the asynchronous
environment (RPC results, REST attempt outcomes, persistence outcomes)
is passed in explicitly.
-/

/-- Lowercasing used for the case-insensitive contract allow-list
(`addr.toLowerCase()` in block-processor.ts). -/
def lowerStr (s : String) : String := ⟨s.data.map Char.toLower⟩

/-- Subset of the viem `Transaction` object used by the scanner.
The `to` and `blobVersionedHashes` fields are nullable / possibly absent
in viem, hence `Option`; `to` and `from` are keywords here so the address
fields are named `toAddr` and `fromAddr`. -/
structure Transaction where
  type : String
  hash : String
  fromAddr : String
  toAddr : Option String
  blobVersionedHashes : Option (List String)
deriving DecidableEq

/-- An entry of `block.transactions`: either an unhydrated hash string or
a full transaction object. -/
inductive TxEntry where
  | hashOnly (h : String)
  | full (tx : Transaction)
deriving DecidableEq

/-- Subset of the viem `Block` object used by the scanner.  `number` and
`hash` are null for pending blocks, hence `Option`. -/
structure Block where
  number : Option Int
  hash : Option String
  timestamp : Nat
  transactions : List TxEntry
deriving DecidableEq

/-- The job record built by the scanner (ProcessingJob in
src/blob-monitor/types.ts).  The object literal in block-processor.ts
sets exactly these fields; the declared type also lists a required `to`
field which the constructor never sets, so the runtime object has no
`to` key and it is not part of this structure. -/
structure ProcessingJob where
  blockNumber : Int
  blockHash : String
  timestamp : Nat
  txHash : String
  fromAddr : String
  blobVersionedHashes : List String
  l2Source : String
deriving DecidableEq

/-- block-processor.ts lines 5-21: a transaction qualifies iff its type
is eip4844, its destination is non-null and its lowercased form is in
the (already lowercased) monitored set, and it carries a non-empty
blob versioned hash array. -/
def isRelevantBlobTransaction (tx : Transaction) (monitoredContracts : List String) : Bool :=
  tx.type == "eip4844" &&
  (match tx.toAddr with
   | none => false
   | some a => monitoredContracts.contains (lowerStr a)) &&
  (match tx.blobVersionedHashes with
   | none => false
   | some hs => !hs.isEmpty)

/-- The job object literal built in block-processor.ts lines 57-65. -/
def mkJob (blockNumber : Int) (blockHash : String) (timestamp : Nat)
    (l2Source : String) (tx : Transaction) : ProcessingJob :=
  { blockNumber := blockNumber
    blockHash := blockHash
    timestamp := timestamp
    txHash := tx.hash
    fromAddr := tx.fromAddr
    blobVersionedHashes := tx.blobVersionedHashes.getD []
    l2Source := l2Source }

/-- block-processor.ts lines 23-72.  Returns [] when number or hash is
null, when the transaction list is empty, or when its first entry is an
unhydrated hash string.  Otherwise filters the full transaction objects
(the source casts the array after checking only the first entry; string
entries can never satisfy the predicate, so dropping them is the runtime
behaviour) and maps the qualifying ones to jobs in order. -/
def createProcessingJobsForBlock (block : Block) (baseContracts : List String)
    (l2Source : String) : List ProcessingJob :=
  match block.number, block.hash with
  | some blockNumber, some blockHash =>
    if block.transactions.isEmpty then []
    else if (match block.transactions.head? with
             | some (.hashOnly _) => true
             | _ => false) then []
    else
      let monitoredContracts := baseContracts.map lowerStr
      let fullTxs := block.transactions.filterMap
        (fun e => match e with | .full tx => some tx | .hashOnly _ => none)
      (fullTxs.filter (fun tx => isRelevantBlobTransaction tx monitoredContracts)).map
        (mkJob blockNumber blockHash block.timestamp l2Source)
  | _, _ => []

/-! ## Monitor loop (monitor.ts, first variant) -/

/-- Monitor configuration fields consumed by the loop. -/
structure MonitorCfg where
  confirmations : Nat
  batchSize : Nat
deriving DecidableEq

/-- The per-iteration environment: the head-height query result, the
outcome of fetching and scanning each block number (processBlockNumber,
including job emission), and whether persisting a cursor value
succeeds. -/
structure MonitorEnv where
  headResult : Except String Int
  blockOutcome : Int → Except String Unit
  persistOk : Int → Bool

/-- `config.confirmations || 3` (monitor.ts line 142): JS falsy 0 is
replaced by the default. -/
def effConfirmations (c : Nat) : Nat := if c = 0 then 3 else c

/-- `config.batchSize || 10` (monitor.ts line 81). -/
def effBatchSize (b : Nat) : Nat := if b = 0 then 10 else b

/-- The inclusive integer range of block numbers from a to b. -/
def rangeList (a b : Int) : List Int :=
  (List.range (b + 1 - a).toNat).map (fun (i : Nat) => a + (i : Int))

/-- The Promise.all join over one batch (monitor.ts lines 92-100):
all-or-nothing, surfacing the first failing block in order. -/
def allBlocksOk (outcome : Int → Except String Unit) : List Int → Except String Unit
  | [] => .ok ()
  | b :: rest =>
    match outcome b with
    | .error e => .error e
    | .ok _ => allBlocksOk outcome rest

/-- The batch end computed at monitor.ts lines 86-87: the minimum of
currentBlock + batchSize - 1 and toBlock. -/
def batchEndOf (batchSize : Nat) (currentBlock toBlock : Int) : Int :=
  if currentBlock + (batchSize : Int) - 1 > toBlock then toBlock
  else currentBlock + (batchSize : Int) - 1

/-- The while loop of processBlockRange (monitor.ts lines 85-112),
with fuel bounding the number of batch steps (one block of fuel per
block; sufficient whenever the batch size is positive, which
effBatchSize guarantees). -/
def processBatches (outcome : Int → Except String Unit) (batchSize : Nat) :
    Nat → Int → Int → Except String Unit
  | 0, _, _ => .ok ()
  | fuel + 1, currentBlock, toBlock =>
    if currentBlock ≤ toBlock then
      match allBlocksOk outcome (rangeList currentBlock (batchEndOf batchSize currentBlock toBlock)) with
      | .error e => .error e
      | .ok _ =>
        processBatches outcome batchSize fuel (batchEndOf batchSize currentBlock toBlock + 1) toBlock
    else .ok ()

/-- processBlockRange (monitor.ts lines 74-115): batched traversal of
[fromBlock, toBlock]; returns toBlock on success, the first error
otherwise. -/
def processBlockRange (cfg : MonitorCfg) (outcome : Int → Except String Unit)
    (fromBlock toBlock : Int) : Except String Int :=
  match processBatches outcome (effBatchSize cfg.batchSize)
      (toBlock + 1 - fromBlock).toNat fromBlock toBlock with
  | .error e => .error e
  | .ok _ => .ok toBlock

/-- The confirmed target block of an iteration (monitor.ts line 142). -/
def targetOf (cfg : MonitorCfg) (latestBlock : Int) : Int :=
  latestBlock - (effConfirmations cfg.confirmations : Int)

/-- toBlock of a scan iteration (monitor.ts lines 145-147): fromBlock is
cursor + 1, maxBlocks is fromBlock + 99, toBlock caps the range at 100
blocks. -/
def toBlockOf (cursor targetBlock : Int) : Int :=
  if cursor + 1 + 99 < targetBlock then cursor + 1 + 99 else targetBlock

/-- One iteration of monitorLoop (monitor.ts lines 139-174), as a
transition on (in-memory cursor, persisted store).  Any thrown error is
caught by the surrounding try/catch, which only logs and sleeps.  Note
the source order: the in-memory state is rebound to the processed block
(line 159) before the store write is awaited (line 160), so a failing
write leaves the in-memory cursor advanced. -/
def monitorIteration (cfg : MonitorCfg) (env : MonitorEnv) (cursor store : Int) :
    Int × Int :=
  match env.headResult with
  | .error _ => (cursor, store)
  | .ok latestBlock =>
    if cursor < targetOf cfg latestBlock then
      match processBlockRange cfg env.blockOutcome (cursor + 1)
          (toBlockOf cursor (targetOf cfg latestBlock)) with
      | .error _ => (cursor, store)
      | .ok processedBlock =>
        if env.persistOk processedBlock then (processedBlock, processedBlock)
        else (processedBlock, store)
    else (cursor, store)

/-- A sequence of loop iterations, each with its own environment. -/
def runIterations (cfg : MonitorCfg) (envs : List MonitorEnv) (start : Int × Int) :
    Int × Int :=
  envs.foldl (fun p e => monitorIteration cfg e p.1 p.2) start

/-! ## Blob fetcher (fetcher.ts, REST Beacon API variant, src/unnamed/part_000) -/

/-- Fetcher configuration (src/blob-fetcher/types.ts lines 34-37). -/
structure BlobFetcherConfig where
  retryCount : Nat
  retryDelayMs : Nat
deriving DecidableEq

/-- The module default (fetcher.ts lines 11-14). -/
def defaultFetcherConfigValues : BlobFetcherConfig :=
  { retryCount := 3, retryDelayMs := 2000 }

/-- Config resolution in createBlobFetcher (fetcher.ts lines 39-42):
nullish coalescing against the defaults. -/
def mkFetcherConfig (rc rd : Option Nat) : BlobFetcherConfig :=
  { retryCount := rc.getD defaultFetcherConfigValues.retryCount
    retryDelayMs := rd.getD defaultFetcherConfigValues.retryDelayMs }

/-- Mainnet merge reference timestamp (fetcher.ts line 61). -/
def MERGE_TIMESTAMP : Nat := 1663224179

/-- Mainnet merge reference slot (fetcher.ts line 62). -/
def MERGE_SLOT : Nat := 4700013

/-- Slot duration in seconds (fetcher.ts line 63). -/
def SECONDS_PER_SLOT : Nat := 12

/-- The slot value computed on the non-error path (fetcher.ts line 69);
bigint division of non-negative operands is floor division, Nat.div
here. -/
def slotValue (ts : Nat) : Nat :=
  MERGE_SLOT + (ts - MERGE_TIMESTAMP) / SECONDS_PER_SLOT

/-- Slot resolution (fetcher.ts lines 65-69): pre-merge timestamps throw,
otherwise the slot is computed from the timestamp. -/
def resolveSlot (ts : Nat) : Except String Nat :=
  if ts < MERGE_TIMESTAMP then .error "pre-merge block has no blob data"
  else .ok (slotValue ts)

/-- One sidecar of the Beacon API response (fetcher.ts lines 20-26). -/
structure BeaconApiBlobSidecar where
  index : String
  blob : String
  kzg_commitment : String
  kzg_proof : String
deriving DecidableEq

/-- The Beacon API response shape (fetcher.ts lines 28-33). -/
structure BeaconApiGetBlobSidecarsResponse where
  version : String
  execution_optimistic : Bool
  finalized : Bool
  data : List BeaconApiBlobSidecar
deriving DecidableEq

/-- The sentinel assigned when the final attempt fails (fetcher.ts
line 123). -/
def emptyBeaconResponse : BeaconApiGetBlobSidecarsResponse :=
  { version := "", execution_optimistic := false, finalized := false, data := [] }

/-- What one REST attempt can do, seen from the retry loop: a transport
or HTTP failure (the fetch call or response.ok check throwing), a
response whose JSON does not match the expected shape (fetcher.ts
line 113), or a shape-valid response.  Both failure forms reach the same
catch block carrying only their message. -/
inductive AttemptOutcome where
  | transportError (msg : String)
  | shapeMismatch (msg : String)
  | validResponse (resp : BeaconApiGetBlobSidecarsResponse)

/-- True on the two failure constructors. -/
def isFailureOutcome : AttemptOutcome → Bool
  | .transportError _ => true
  | .shapeMismatch _ => true
  | .validResponse _ => false

/-- Transposes the two failure kinds, keeping the carried message. -/
def swapKind : AttemptOutcome → AttemptOutcome
  | .transportError m => .shapeMismatch m
  | .shapeMismatch m => .transportError m
  | .validResponse r => .validResponse r

/-- The lastError message built in the catch block (fetcher.ts
line 117), abstracting the log formatting but keeping the data it
interpolates. -/
def attemptFailMsg (attempt slot : Nat) (msg : String) : String :=
  "Attempt " ++ toString attempt ++ " failed for Beacon API for slot " ++
    toString slot ++ ": " ++ msg

/-- The retry while loop (fetcher.ts lines 87-126).  `remaining` is
retryCount minus the attempts already made; `env n` is the outcome of
the n-th attempt (1-indexed).  Returns the final beaconApiResponse, the
final lastError, and the number of attempts made.  On the last allowed
attempt a failure installs the empty sentinel response so the loop
terminates. -/
def retryGo (env : Nat → AttemptOutcome) (slot : Nat) :
    Nat → Nat → Option String →
    Option BeaconApiGetBlobSidecarsResponse × Option String × Nat
  | 0, attempt, lastErr => (none, lastErr, attempt)
  | remaining + 1, attempt, lastErr =>
    match env (attempt + 1) with
    | .validResponse r => (some r, lastErr, attempt + 1)
    | .transportError m =>
      let le := some (attemptFailMsg (attempt + 1) slot m)
      match remaining with
      | 0 => (some emptyBeaconResponse, le, attempt + 1)
      | k + 1 => retryGo env slot (k + 1) (attempt + 1) le
    | .shapeMismatch m =>
      let le := some (attemptFailMsg (attempt + 1) slot m)
      match remaining with
      | 0 => (some emptyBeaconResponse, le, attempt + 1)
      | k + 1 => retryGo env slot (k + 1) (attempt + 1) le

/-- The whole retry loop from its initial state (attempt = 0,
beaconApiResponse = null, lastError = null). -/
def runRetryLoop (env : Nat → AttemptOutcome) (slot retryCount : Nat) :
    Option BeaconApiGetBlobSidecarsResponse × Option String × Nat :=
  retryGo env slot retryCount 0 none

/-- Hex normalization applied to every sidecar field (fetcher.ts
lines 144-149). -/
def normalizeHex (s : String) : String :=
  if s.startsWith "0x" then s else "0x" ++ s

/-- RpcBlobSidecar (src/blob-fetcher/types.ts lines 41-47). -/
structure RpcBlobSidecar where
  blob : String
  kzgCommitment : String
  kzgProof : String
deriving DecidableEq

/-- The per-sidecar mapping of fetcher.ts lines 144-149. -/
def mapSidecar (s : BeaconApiBlobSidecar) : RpcBlobSidecar :=
  { blob := normalizeHex s.blob
    kzgCommitment := normalizeHex s.kzg_commitment
    kzgProof := normalizeHex s.kzg_proof }

/-- FetchedBlob (src/blob-fetcher/types.ts lines 2-7). -/
structure FetchedBlob where
  versionedHash : String
  blob : String
  kzgProof : String
  kzgCommitment : String
deriving DecidableEq

/-- An entry of the errorsEncountered array.  The source pushes
formatted strings; each constructor carries the data interpolated into
the corresponding string (fetcher.ts lines 175-177 and 184-187). -/
inductive ErrEntry where
  | sidecarProcessing (commitment : String) (msg : String)
  | missingExpected (missing : List String)
deriving DecidableEq

/-- State threaded through the reconciliation for loop (fetcher.ts
lines 152-179): the fetchedBlobsForTx array, the foundVersionedHashes
set (a duplicate-free list), and the errorsEncountered array. -/
structure ReconState where
  blobs : List FetchedBlob
  found : List String
  errs : List ErrEntry
deriving DecidableEq

/-- One iteration of the reconciliation loop (fetcher.ts lines 156-179):
derive the versioned hash of the commitment (`derive` stands for viem
commitmentToVersionedHash, which may throw); if it is among the expected
hashes, push a FetchedBlob and record the hash as found; a derivation
error is recorded and the loop continues. -/
def reconStep (expected : List String) (derive : String → Except String String)
    (st : ReconState) (sidecar : RpcBlobSidecar) : ReconState :=
  match derive sidecar.kzgCommitment with
  | .ok dh =>
    if expected.contains dh then
      { blobs := st.blobs ++
          [{ versionedHash := dh, blob := sidecar.blob,
             kzgProof := sidecar.kzgProof, kzgCommitment := sidecar.kzgCommitment }]
        found := if st.found.contains dh then st.found else st.found ++ [dh]
        errs := st.errs }
    else st
  | .error m =>
    { st with errs := st.errs ++ [.sidecarProcessing sidecar.kzgCommitment m] }

/-- The whole reconciliation loop over the mapped sidecars. -/
def reconcileSidecars (expected : List String)
    (derive : String → Except String String) (sidecars : List RpcBlobSidecar) :
    ReconState :=
  sidecars.foldl (reconStep expected derive) { blobs := [], found := [], errs := [] }

/-- fetcher.ts line 181: allExpectedBlobsFound. -/
def allExpectedFound (expected found : List String) : Bool :=
  expected.isEmpty || expected.all (fun h => found.contains h)

/-- fetcher.ts lines 183-188: when not all expected hashes were found,
append an error naming the missing ones. -/
def finalErrs (expected found : List String) (errs : List ErrEntry) : List ErrEntry :=
  if !allExpectedFound expected found && expected.length > 0 then
    errs ++ [.missingExpected (expected.filter (fun h => !found.contains h))]
  else errs

/-- The runtime result object built in fetcher.ts lines 190-201.  The
declared type FetchedTransactionBlobs (src/blob-fetcher/types.ts
lines 10-31) also requires `to : string` and `slot : string` (and an
optional blockRootHash), but the object literal never sets them, so they
are modelled as Option fields where none means the key is absent. -/
structure FetchedTransactionBlobs where
  transactionHash : String
  blockNumber : Int
  blockHash : String
  timestamp : Nat
  fromAddr : String
  toAddr : Option String
  l2Source : String
  expectedBlobVersionedHashes : List String
  slot : Option String
  blockRootHash : Option String
  fetchedBlobs : List FetchedBlob
  allBlobsFound : Bool
  errors : Option (List ErrEntry)
deriving DecidableEq

/-- Builds the resultData object literal (fetcher.ts lines 190-201) from
the job and the final reconciliation state.  The errors key is present
iff errorsEncountered is non-empty. -/
def buildResult (job : ProcessingJob) (st : ReconState) : FetchedTransactionBlobs :=
  let errs := finalErrs job.blobVersionedHashes st.found st.errs
  { transactionHash := job.txHash
    blockNumber := job.blockNumber
    blockHash := job.blockHash
    timestamp := job.timestamp
    fromAddr := job.fromAddr
    toAddr := none
    l2Source := job.l2Source
    expectedBlobVersionedHashes := job.blobVersionedHashes
    slot := none
    blockRootHash := none
    fetchedBlobs := st.blobs
    allBlobsFound := allExpectedFound job.blobVersionedHashes st.found
    errors := if errs.length > 0 then some errs else none }

/-- The Err branches of fetchBlobsForJob: the slot-calculation catch
(fetcher.ts lines 71-75) and the sidecar-fetch failure (lines 128-132),
carrying the final lastError. -/
inductive FetchError where
  | slotCalcFailed (msg : String)
  | sidecarsFetchFailed (lastErr : Option String)
deriving DecidableEq

/-- fetchBlobsForJob (fetcher.ts lines 44-210).  The environment is
explicit: `getBlockResult` is the timestamp of the block fetched via
viemClient.getBlock (or the error thrown by it), `env` gives each REST
attempt outcome, and `derive` is commitmentToVersionedHash.  Returns
the Result together with the number of REST attempts made. -/
def fetchBlobsForJob (cfg : BlobFetcherConfig) (job : ProcessingJob)
    (getBlockResult : Except String Nat) (env : Nat → AttemptOutcome)
    (derive : String → Except String String) :
    Except FetchError FetchedTransactionBlobs × Nat :=
  match getBlockResult with
  | .error m => (.error (.slotCalcFailed m), 0)
  | .ok blockTs =>
    match resolveSlot blockTs with
    | .error m => (.error (.slotCalcFailed m), 0)
    | .ok slotNumber =>
      match runRetryLoop env slotNumber cfg.retryCount with
      | (none, lastErr, attempts) => (.error (.sidecarsFetchFailed lastErr), attempts)
      | (some resp, lastErr, attempts) =>
        if resp.data.isEmpty && !job.blobVersionedHashes.isEmpty && lastErr.isSome then
          (.error (.sidecarsFetchFailed lastErr), attempts)
        else
          (.ok (buildResult job
            (reconcileSidecars job.blobVersionedHashes derive (resp.data.map mapSidecar))),
           attempts)

/-! ## Lemmas about the block scanner -/

/-- The qualification predicate, spelled out. -/
lemma isRelevantBlobTransaction_iff (tx : Transaction) (ms : List String) :
    isRelevantBlobTransaction tx ms = true ↔
      (tx.type = "eip4844" ∧
       (∃ a, tx.toAddr = some a ∧ lowerStr a ∈ ms) ∧
       (∃ hs, tx.blobVersionedHashes = some hs ∧ hs ≠ [])) := by
  unfold isRelevantBlobTransaction
  cases hta : tx.toAddr with
  | none => simp [hta]
  | some a =>
    cases hbv : tx.blobVersionedHashes with
    | none => simp [hta, hbv]
    | some hs => simp [hta, hbv, and_assoc]

/-- Projecting the full transactions out of a fully hydrated entry list
recovers the transaction list. -/
lemma filterMap_full (txs : List Transaction) :
    (txs.map TxEntry.full).filterMap
      (fun e => match e with | .full tx => some tx | .hashOnly _ => none) = txs := by
  induction txs with
  | nil => rfl
  | cons t rest ih =>
    simp only [List.map_cons, List.filterMap_cons]
    simpa using ih

/-- Scanning a fully hydrated block is the order-preserving filter-map
of the qualification predicate. -/
lemma createProcessingJobsForBlock_hydrated (b : Block) (n : Int) (hsh : String)
    (contracts : List String) (l2s : String) (txs : List Transaction)
    (h1 : b.number = some n) (h2 : b.hash = some hsh)
    (h3 : b.transactions = txs.map TxEntry.full) :
    createProcessingJobsForBlock b contracts l2s =
      (txs.filter (fun tx => isRelevantBlobTransaction tx (contracts.map lowerStr))).map
        (mkJob n hsh b.timestamp l2s) := by
  unfold createProcessingJobsForBlock
  rw [h1, h2]
  simp only [h3, filterMap_full]
  cases txs with
  | nil => simp
  | cons t rest =>
    rw [if_neg (by simp), if_neg (by simp)]

/-- A transaction of a type other than eip4844 never qualifies. -/
lemma isRelevantBlobTransaction_of_ne_type (tx : Transaction) (ms : List String)
    (h : tx.type ≠ "eip4844") : isRelevantBlobTransaction tx ms = false := by
  unfold isRelevantBlobTransaction
  have : (tx.type == "eip4844") = false := by simpa using h
  simp [this]

/-- C3.  For every timestamp at or after the merge reference timestamp,
the resolved slot is MERGE_SLOT + floor((ts - MERGE_TIMESTAMP) /
SECONDS_PER_SLOT); the reference timestamp resolves to the reference
slot exactly; and the slot value is monotone non-decreasing in the
timestamp. -/
theorem slot_resolution_formula (ts t2 : Nat)
    (h1 : MERGE_TIMESTAMP ≤ ts) (h2 : ts ≤ t2) :
    resolveSlot ts = .ok (MERGE_SLOT + (ts - MERGE_TIMESTAMP) / SECONDS_PER_SLOT)
    ∧ resolveSlot MERGE_TIMESTAMP = .ok MERGE_SLOT
    ∧ slotValue ts ≤ slotValue t2 := by
  refine ⟨?_, ?_, ?_⟩
  · rw [resolveSlot, if_neg (by omega)]
    rfl
  · rw [resolveSlot, if_neg (by omega)]
    simp [slotValue]
  · exact Nat.add_le_add_left
      (Nat.div_le_div_right (Nat.sub_le_sub_right h2 _)) _

/-- Witness for slot_resolution_formula: the spec example, 24 seconds
after the reference timestamp, resolves two slots later. -/
theorem slot_resolution_formula_witness :
    resolveSlot (MERGE_TIMESTAMP + 24) = .ok (MERGE_SLOT + 2)
    ∧ slotValue (MERGE_TIMESTAMP + 24) ≤ slotValue (MERGE_TIMESTAMP + 25) := by
  have h := slot_resolution_formula (MERGE_TIMESTAMP + 24) (MERGE_TIMESTAMP + 25)
    (by omega) (by omega)
  refine ⟨?_, h.2.2⟩
  rw [h.1]
  norm_num [SECONDS_PER_SLOT]

/-- C6 counterexample input: an access-list (eip2930) transaction that
carries a blob versioned hash and whose destination is allow-listed
case-insensitively. -/
def cxTx : Transaction :=
  { type := "eip2930", hash := "0xt1", fromAddr := "0xf",
    toAddr := some "0xAbC", blobVersionedHashes := some ["0xh1"] }

/-- C6 counterexample block: fully resolved and hydrated, containing
only cxTx. -/
def cxBlock : Block :=
  { number := some 1, hash := some "0xabc", timestamp := 7,
    transactions := [.full cxTx] }

/-- C6 counterexample.  cxTx carries a blob versioned hash and its
destination is non-null and case-insensitively in the allow-list, so by
the claim it should yield a job; the scanner returns no job because the
transaction type is not eip4844. -/
theorem scanner_qualification_counterexample :
    cxTx.blobVersionedHashes = some ["0xh1"]
    ∧ cxTx.toAddr = some "0xAbC"
    ∧ lowerStr "0xAbC" ∈ ["0xabc"].map lowerStr
    ∧ createProcessingJobsForBlock cxBlock ["0xabc"] "base" = [] := by
  refine ⟨rfl, rfl, by decide, by decide⟩

/-- C6 amended.  For a block with resolved number and hash and hydrated
transactions, a transaction yields a job iff its type is eip4844, it
carries one or more blob versioned hashes, and its destination address
is non-null and present case-insensitively in the allow-list; the job
list is the order-preserving filter of the transaction list. -/
theorem scanner_qualification_amended (b : Block) (n : Int) (hsh : String)
    (contracts : List String) (l2s : String) (txs : List Transaction)
    (h1 : b.number = some n) (h2 : b.hash = some hsh)
    (h3 : b.transactions = txs.map TxEntry.full) :
    createProcessingJobsForBlock b contracts l2s =
      (txs.filter (fun tx => isRelevantBlobTransaction tx (contracts.map lowerStr))).map
        (mkJob n hsh b.timestamp l2s)
    ∧ (∀ (tx : Transaction) (ms : List String),
        isRelevantBlobTransaction tx ms = true ↔
          (tx.type = "eip4844" ∧
           (∃ a, tx.toAddr = some a ∧ lowerStr a ∈ ms) ∧
           (∃ hs, tx.blobVersionedHashes = some hs ∧ hs ≠ []))) :=
  ⟨createProcessingJobsForBlock_hydrated b n hsh contracts l2s txs h1 h2 h3,
   fun tx ms => isRelevantBlobTransaction_iff tx ms⟩

/-- Witness for scanner_qualification_amended: a hydrated one-transaction
block whose eip4844 transaction qualifies. -/
def wTx : Transaction :=
  { type := "eip4844", hash := "0xt1", fromAddr := "0xf",
    toAddr := some "0xAbC", blobVersionedHashes := some ["0xh1"] }

/-- The hydrated witness block for the scanner claims. -/
def wBlock : Block :=
  { number := some 1, hash := some "0xabc", timestamp := 7,
    transactions := [.full wTx] }

/-- Witness for scanner_qualification_amended at wBlock. -/
theorem scanner_qualification_amended_witness :
    createProcessingJobsForBlock wBlock ["0xAbc"] "base" =
      ([wTx].filter (fun tx => isRelevantBlobTransaction tx (["0xAbc"].map lowerStr))).map
        (mkJob 1 "0xabc" wBlock.timestamp "base")
    ∧ (isRelevantBlobTransaction wTx ["0xabc"] = true ↔
        (wTx.type = "eip4844" ∧
         (∃ a, wTx.toAddr = some a ∧ lowerStr a ∈ ["0xabc"]) ∧
         (∃ hs, wTx.blobVersionedHashes = some hs ∧ hs ≠ []))) := by
  have h := scanner_qualification_amended wBlock 1 "0xabc" ["0xAbc"] "base" [wTx]
    rfl rfl rfl
  exact ⟨h.1, h.2 wTx ["0xabc"]⟩

/-- C8.  A block whose number or hash is unresolved yields an empty job
list, and so does a block whose transactions are present only as hash
strings. -/
theorem scanner_unhydrated_empty (b : Block) (contracts : List String) (l2s : String) :
    ((b.number = none ∨ b.hash = none) →
      createProcessingJobsForBlock b contracts l2s = [])
    ∧ ((∀ e ∈ b.transactions, ∃ s, e = TxEntry.hashOnly s) →
      createProcessingJobsForBlock b contracts l2s = []) := by
  obtain ⟨bn, bh, bts, btx⟩ := b
  constructor
  · rintro (h | h) <;> simp only at h <;> subst h <;>
      [skip; cases bn] <;> rfl
  · intro hall
    simp only at hall
    cases bn with
    | none => rfl
    | some n =>
      cases bh with
      | none => rfl
      | some hsh =>
        cases btx with
        | nil => rfl
        | cons e rest =>
          obtain ⟨s, rfl⟩ := hall e (by simp)
          rfl

/-- Witness for scanner_unhydrated_empty: a block with a null number and
a block whose only transaction entry is a bare hash string. -/
theorem scanner_unhydrated_empty_witness :
    createProcessingJobsForBlock
      { number := none, hash := some "0xabc", timestamp := 7, transactions := [.full wTx] }
      ["0xabc"] "base" = []
    ∧ createProcessingJobsForBlock
      { number := some 1, hash := some "0xabc", timestamp := 7,
        transactions := [.hashOnly "0xt1"] }
      ["0xabc"] "base" = [] := by
  refine ⟨?_, ?_⟩
  · exact (scanner_unhydrated_empty _ ["0xabc"] "base").1 (Or.inl rfl)
  · exact (scanner_unhydrated_empty _ ["0xabc"] "base").2
      (by rintro e he; simp at he; exact ⟨"0xt1", he⟩)

/-- C10.  A transaction whose type field is not eip4844 never qualifies,
even when it carries blob versioned hashes and an allow-listed
destination, and a hydrated block containing only such transactions
yields no jobs. -/
theorem scanner_type_filter :
    (∀ (tx : Transaction) (ms : List String), tx.type ≠ "eip4844" →
      isRelevantBlobTransaction tx ms = false)
    ∧ (∀ (b : Block) (contracts : List String) (l2s : String),
        (∀ e ∈ b.transactions, ∀ tx, e = TxEntry.full tx → tx.type ≠ "eip4844") →
        createProcessingJobsForBlock b contracts l2s = []) := by
  refine ⟨fun tx ms h => isRelevantBlobTransaction_of_ne_type tx ms h, ?_⟩
  intro b contracts l2s hall
  obtain ⟨bn, bh, bts, btx⟩ := b
  simp only at hall
  cases bn with
  | none => rfl
  | some n =>
    cases bh with
    | none => rfl
    | some hsh =>
      unfold createProcessingJobsForBlock
      simp only
      by_cases he : (btx : List TxEntry).isEmpty
      · rw [if_pos he]
      · rw [if_neg he]
        by_cases hh : (match btx.head? with
                       | some (.hashOnly _) => true
                       | _ => false) = true
        · rw [if_pos hh]
        · rw [if_neg hh]
          have hfil : (btx.filterMap
              (fun e => match e with | .full tx => some tx | .hashOnly _ => none)).filter
              (fun tx => isRelevantBlobTransaction tx (contracts.map lowerStr)) = [] := by
            rw [List.filter_eq_nil_iff]
            intro tx htx
            rw [List.mem_filterMap] at htx
            obtain ⟨e, he2, hmatch⟩ := htx
            cases e with
            | hashOnly s => simp at hmatch
            | full tx2 =>
              simp only [Option.some.injEq] at hmatch
              subst hmatch
              simp [isRelevantBlobTransaction_of_ne_type _ _ (hall _ he2 _ rfl)]
          rw [hfil]
          rfl

/-- Witness for scanner_type_filter at cxTx / cxBlock: a legacy-typed
transaction carrying hashes to an allow-listed address yields nothing. -/
theorem scanner_type_filter_witness :
    isRelevantBlobTransaction cxTx ["0xabc"] = false
    ∧ createProcessingJobsForBlock cxBlock ["0xabc"] "base" = [] := by
  refine ⟨scanner_type_filter.1 cxTx ["0xabc"] (by decide), ?_⟩
  exact scanner_type_filter.2 cxBlock ["0xabc"] "base"
    (by rintro e he tx htx; simp [cxBlock] at he; subst he;
        simp [cxTx] at htx; subst htx; decide)

/-! ## Lemmas about the monitor loop -/

/-- allBlocksOk succeeds iff every block in the list does. -/
lemma allBlocksOk_ok_iff (outcome : Int → Except String Unit) (blocks : List Int) :
    allBlocksOk outcome blocks = .ok () ↔ ∀ b ∈ blocks, outcome b = .ok () := by
  induction blocks with
  | nil => simp [allBlocksOk]
  | cons b rest ih =>
    simp only [allBlocksOk]
    cases h : outcome b with
    | error e => simp [h]
    | ok u => cases u; simp [h, ih]

/-- Membership in the inclusive integer range. -/
lemma mem_rangeList {a c b : Int} : b ∈ rangeList a c ↔ a ≤ b ∧ b ≤ c := by
  simp only [rangeList, List.mem_map, List.mem_range]
  constructor
  · rintro ⟨i, hi, rfl⟩
    omega
  · rintro ⟨hab, hbc⟩
    exact ⟨(b - a).toNat, by omega, by omega⟩

/-- With a positive batch size and at most toBlock reached, the batch end
lies between currentBlock and toBlock. -/
lemma batchEndOf_bounds {bs : Nat} {current toB : Int} (hbs : 0 < bs)
    (hc : current ≤ toB) :
    current ≤ batchEndOf bs current toB ∧ batchEndOf bs current toB ≤ toB := by
  unfold batchEndOf
  split <;> omega

/-- With a positive batch size and enough fuel, the batched traversal
succeeds iff every block in [currentBlock, toBlock] does. -/
lemma processBatches_ok_iff (outcome : Int → Except String Unit) {bs : Nat}
    (hbs : 0 < bs) :
    ∀ (fuel : Nat) (current toB : Int), toB + 1 - current ≤ (fuel : Int) →
      (processBatches outcome bs fuel current toB = .ok () ↔
        ∀ b : Int, current ≤ b → b ≤ toB → outcome b = .ok ()) := by
  intro fuel
  induction fuel with
  | zero =>
    intro current toB hf
    simp only [processBatches]
    constructor
    · intro _ b hb1 hb2
      exact absurd hf (by omega)
    · intro _
      trivial
  | succ f ih =>
    intro current toB hf
    simp only [processBatches]
    by_cases hc : current ≤ toB
    · rw [if_pos hc]
      obtain ⟨hbe1, hbe2⟩ := batchEndOf_bounds hbs hc
      cases hA : allBlocksOk outcome (rangeList current (batchEndOf bs current toB)) with
      | error e =>
        simp only
        constructor
        · intro hcontra
          exact absurd hcontra (by simp)
        · intro hAll
          exfalso
          have : allBlocksOk outcome (rangeList current (batchEndOf bs current toB)) = .ok () := by
            rw [allBlocksOk_ok_iff]
            intro b hb
            rw [mem_rangeList] at hb
            exact hAll b hb.1 (by omega)
          rw [this] at hA
          exact Except.noConfusion hA
      | ok u =>
        cases u
        simp only
        rw [ih (batchEndOf bs current toB + 1) toB (by omega)]
        constructor
        · intro hrec b hb1 hb2
          by_cases hble : b ≤ batchEndOf bs current toB
          · exact (allBlocksOk_ok_iff _ _).mp hA b (mem_rangeList.mpr ⟨hb1, hble⟩)
          · exact hrec b (by omega) hb2
        · intro hAll b hb1 hb2
          exact hAll b (by omega) hb2
    · rw [if_neg hc]
      constructor
      · intro _ b hb1 hb2
        exact absurd hc (by omega)
      · intro _
        rfl

/-- effBatchSize is always positive. -/
lemma effBatchSize_pos (b : Nat) : 0 < effBatchSize b := by
  unfold effBatchSize
  split <;> omega

/-- processBlockRange succeeds exactly when every block in the range
does, and then returns toBlock. -/
lemma processBlockRange_ok_iff (cfg : MonitorCfg) (outcome : Int → Except String Unit)
    (fromB toB : Int) (v : Int) :
    processBlockRange cfg outcome fromB toB = .ok v ↔
      (v = toB ∧ ∀ b : Int, fromB ≤ b → b ≤ toB → outcome b = .ok ()) := by
  unfold processBlockRange
  have hiff := processBatches_ok_iff outcome (effBatchSize_pos cfg.batchSize)
    (toB + 1 - fromB).toNat fromB toB (by omega)
  cases hP : processBatches outcome (effBatchSize cfg.batchSize)
      (toB + 1 - fromB).toNat fromB toB with
  | error e =>
    rw [hP] at hiff
    simp only
    constructor
    · intro h
      exact Except.noConfusion h
    · rintro ⟨rfl, hAll⟩
      exfalso
      have := hiff.mpr hAll
      exact Except.noConfusion this
  | ok u =>
    cases u
    rw [hP] at hiff
    simp only
    constructor
    · intro h
      injection h with h
      subst h
      exact ⟨rfl, hiff.mp rfl⟩
    · rintro ⟨rfl, _⟩
      rfl

/-- toBlockOf lies strictly above the cursor and at or below the target
when the cursor is behind the target. -/
lemma toBlockOf_bounds {c target : Int} (h : c < target) :
    c + 1 ≤ toBlockOf c target ∧ toBlockOf c target ≤ target := by
  unfold toBlockOf
  split <;> omega

/-- Case analysis of one monitor iteration: either the in-memory cursor
is unchanged, or the head query succeeded, the cursor was behind the
target, the new cursor is the range bound, and every block of the range
was processed without error. -/
lemma monitorIteration_fst_cases (cfg : MonitorCfg) (env : MonitorEnv) (c s : Int) :
    (monitorIteration cfg env c s).1 = c ∨
    (∃ latest, env.headResult = .ok latest ∧ c < targetOf cfg latest ∧
      (monitorIteration cfg env c s).1 = toBlockOf c (targetOf cfg latest) ∧
      ∀ b : Int, c + 1 ≤ b → b ≤ toBlockOf c (targetOf cfg latest) →
        env.blockOutcome b = .ok ()) := by
  unfold monitorIteration
  split
  · exact Or.inl rfl
  · rename_i latest heq
    split
    · rename_i hlt
      split
      · exact Or.inl rfl
      · rename_i v hp
        obtain ⟨hv, hall⟩ := (processBlockRange_ok_iff cfg env.blockOutcome (c + 1)
          (toBlockOf c (targetOf cfg latest)) v).mp hp
        subst hv
        refine Or.inr ⟨latest, heq, hlt, ?_, hall⟩
        split <;> rfl
    · exact Or.inl rfl

/-- The in-memory cursor never decreases across one iteration. -/
lemma cursor_le_monitorIteration (cfg : MonitorCfg) (env : MonitorEnv) (c s : Int) :
    c ≤ (monitorIteration cfg env c s).1 := by
  rcases monitorIteration_fst_cases cfg env c s with h | ⟨latest, _, hlt, hfst, _⟩
  · omega
  · have := (toBlockOf_bounds hlt).1
    omega

/-- The in-memory cursor never decreases across any iteration sequence. -/
lemma cursor_le_runIterations (cfg : MonitorCfg) (envs : List MonitorEnv) :
    ∀ c s : Int, c ≤ (runIterations cfg envs (c, s)).1 := by
  induction envs with
  | nil =>
    intro c s
    simp [runIterations]
  | cons e es ih =>
    intro c s
    have h1 := cursor_le_monitorIteration cfg e c s
    have h2 := ih (monitorIteration cfg e c s).1 (monitorIteration cfg e c s).2
    have heq : runIterations cfg (e :: es) (c, s) =
        runIterations cfg es (monitorIteration cfg e c s) := by
      simp [runIterations]
    rw [heq]
    calc c ≤ (monitorIteration cfg e c s).1 := h1
      _ ≤ _ := by
        have := h2
        simpa using this

/-- C1.  The in-memory cursor is monotone non-decreasing across one
iteration and across any sequence of iterations, and whenever it moves
it moves to the range bound toBlockOf, which requires every block in
(cursor, toBlock] to have been processed without error. -/
theorem monitor_cursor_monotone (cfg : MonitorCfg) (env : MonitorEnv) (c s : Int) :
    c ≤ (monitorIteration cfg env c s).1
    ∧ ((monitorIteration cfg env c s).1 ≠ c →
        ∃ latest, env.headResult = .ok latest ∧
          (monitorIteration cfg env c s).1 = toBlockOf c (targetOf cfg latest) ∧
          c < (monitorIteration cfg env c s).1 ∧
          ∀ b : Int, c + 1 ≤ b → b ≤ (monitorIteration cfg env c s).1 →
            env.blockOutcome b = .ok ())
    ∧ (∀ envs : List MonitorEnv, c ≤ (runIterations cfg envs (c, s)).1) := by
  refine ⟨cursor_le_monitorIteration cfg env c s, ?_, fun envs => cursor_le_runIterations cfg envs c s⟩
  intro hne
  rcases monitorIteration_fst_cases cfg env c s with h | ⟨latest, hh, hlt, hfst, hall⟩
  · exact absurd h hne
  · have hb := toBlockOf_bounds hlt
    refine ⟨latest, hh, hfst, by omega, ?_⟩
    intro b hb1 hb2
    exact hall b hb1 (by omega)

/-- Concrete monitor configuration for witnesses: 3 confirmations,
batch size 10. -/
def cfgX : MonitorCfg := { confirmations := 3, batchSize := 10 }

/-- Concrete environment: head at 200, every block scan succeeds, every
cursor-store write fails. -/
def envX : MonitorEnv :=
  { headResult := .ok 200
    blockOutcome := fun _ => .ok ()
    persistOk := fun _ => false }

/-- Witness for monitor_cursor_monotone at cfgX / envX with cursor 5:
the iteration advances the cursor to the range bound 105 and every block
of (5, 105] was processed. -/
theorem monitor_cursor_monotone_witness :
    5 ≤ (monitorIteration cfgX envX 5 5).1
    ∧ (∃ latest, envX.headResult = .ok latest ∧
        (monitorIteration cfgX envX 5 5).1 = toBlockOf 5 (targetOf cfgX latest) ∧
        5 < (monitorIteration cfgX envX 5 5).1 ∧
        ∀ b : Int, 5 + 1 ≤ b → b ≤ (monitorIteration cfgX envX 5 5).1 →
          envX.blockOutcome b = .ok ())
    ∧ (5 ≤ (runIterations cfgX [envX, envX] (5, 5)).1) := by
  have h := monitor_cursor_monotone cfgX envX 5 5
  exact ⟨h.1, h.2.1 (by decide), h.2.2 [envX, envX]⟩

/-- C5 counterexample.  At cfgX / envX with both cursors at 5, the scan
range [6, 105] completes, the store write for 105 fails, yet the
iteration ends with in-memory cursor 105: the cursor value observed by
the next iteration differs from the cursor before the failed iteration,
refuting the claim (only the persisted store is left unchanged). -/
theorem cursor_persist_failure_counterexample :
    envX.persistOk 105 = false
    ∧ (∀ b : Int, 6 ≤ b → b ≤ 105 → envX.blockOutcome b = .ok ())
    ∧ monitorIteration cfgX envX 5 5 = (105, 5)
    ∧ (105 : Int) ≠ 5 := by
  refine ⟨rfl, fun b h1 h2 => rfl, by decide, by decide⟩

/-- C5 amended.  If the whole range succeeds and the cursor-store write
fails, the iteration aborts with the persisted store unchanged, but the
in-memory cursor observed by the next iteration equals the range bound
toBlockOf, not the prior cursor. -/
theorem cursor_persist_failure_amended (cfg : MonitorCfg) (env : MonitorEnv)
    (c s latest : Int)
    (hhead : env.headResult = .ok latest)
    (hlt : c < targetOf cfg latest)
    (hblocks : ∀ b : Int, c + 1 ≤ b → b ≤ toBlockOf c (targetOf cfg latest) →
      env.blockOutcome b = .ok ())
    (hper : env.persistOk (toBlockOf c (targetOf cfg latest)) = false) :
    monitorIteration cfg env c s = (toBlockOf c (targetOf cfg latest), s) := by
  have hrange : processBlockRange cfg env.blockOutcome (c + 1)
      (toBlockOf c (targetOf cfg latest)) = .ok (toBlockOf c (targetOf cfg latest)) :=
    (processBlockRange_ok_iff cfg env.blockOutcome (c + 1)
      (toBlockOf c (targetOf cfg latest)) _).mpr ⟨rfl, hblocks⟩
  unfold monitorIteration
  rw [hhead]
  simp only [if_pos hlt, hrange, hper]
  rfl

/-- Witness for cursor_persist_failure_amended at cfgX / envX. -/
theorem cursor_persist_failure_amended_witness :
    monitorIteration cfgX envX 5 5 = (toBlockOf 5 (targetOf cfgX 200), 5) :=
  cursor_persist_failure_amended cfgX envX 5 5 200 rfl (by decide)
    (fun b h1 h2 => rfl) rfl

/-! ## Lemmas about the blob fetcher -/

/-- Unfolding of the retry loop with no attempts remaining. -/
lemma retryGo_zero (env : Nat → AttemptOutcome) (slot attempt : Nat)
    (le : Option String) : retryGo env slot 0 attempt le = (none, le, attempt) := rfl

/-- One-step unfolding of the retry loop. -/
lemma retryGo_succ (env : Nat → AttemptOutcome) (slot k attempt : Nat)
    (le : Option String) :
    retryGo env slot (k + 1) attempt le =
      match env (attempt + 1) with
      | .validResponse r => (some r, le, attempt + 1)
      | .transportError m =>
        match k with
        | 0 => (some emptyBeaconResponse,
                some (attemptFailMsg (attempt + 1) slot m), attempt + 1)
        | k2 + 1 => retryGo env slot (k2 + 1) (attempt + 1)
                      (some (attemptFailMsg (attempt + 1) slot m))
      | .shapeMismatch m =>
        match k with
        | 0 => (some emptyBeaconResponse,
                some (attemptFailMsg (attempt + 1) slot m), attempt + 1)
        | k2 + 1 => retryGo env slot (k2 + 1) (attempt + 1)
                      (some (attemptFailMsg (attempt + 1) slot m)) := by
  conv_lhs => rw [retryGo.eq_def]

/-- The retry loop never uses more attempts than it has remaining. -/
lemma retryGo_attempts_le (env : Nat → AttemptOutcome) (slot : Nat) :
    ∀ (remaining attempt : Nat) (le : Option String),
      (retryGo env slot remaining attempt le).2.2 ≤ attempt + remaining := by
  intro remaining
  induction remaining with
  | zero =>
    intro attempt le
    rw [retryGo_zero]
    simp
  | succ k ih =>
    intro attempt le
    rw [retryGo_succ]
    cases henv : env (attempt + 1) with
    | validResponse r => simp
    | transportError m =>
      cases k with
      | zero => simp
      | succ k2 =>
        simp only
        calc (retryGo env slot (k2 + 1) (attempt + 1) _).2.2
            ≤ (attempt + 1) + (k2 + 1) := ih (attempt + 1) _
          _ ≤ attempt + (k2 + 1 + 1) := by omega
    | shapeMismatch m =>
      cases k with
      | zero => simp
      | succ k2 =>
        simp only
        calc (retryGo env slot (k2 + 1) (attempt + 1) _).2.2
            ≤ (attempt + 1) + (k2 + 1) := ih (attempt + 1) _
          _ ≤ attempt + (k2 + 1 + 1) := by omega

/-- The retry loop is insensitive to which of the two failure kinds an
attempt produced: transposing transportError and shapeMismatch pointwise
leaves the loop result literally unchanged, because both reach the same
catch handler. -/
lemma retryGo_swapKind (env : Nat → AttemptOutcome) (slot : Nat) :
    ∀ (remaining attempt : Nat) (le : Option String),
      retryGo (fun n => swapKind (env n)) slot remaining attempt le =
        retryGo env slot remaining attempt le := by
  intro remaining
  induction remaining with
  | zero =>
    intro attempt le
    rfl
  | succ k ih =>
    intro attempt le
    rw [retryGo_succ, retryGo_succ]
    cases henv : env (attempt + 1) with
    | validResponse r => simp [swapKind]
    | transportError m =>
      cases k with
      | zero => simp [swapKind]
      | succ k2 =>
        simp only [swapKind]
        exact ih (attempt + 1) _
    | shapeMismatch m =>
      cases k with
      | zero => simp [swapKind]
      | succ k2 =>
        simp only [swapKind]
        exact ih (attempt + 1) _

/-- When every allowed attempt fails, the retry loop ends with the empty
sentinel response, a recorded last error, and all attempts used. -/
lemma retryGo_all_fail (env : Nat → AttemptOutcome) (slot : Nat) :
    ∀ (remaining attempt : Nat) (le : Option String), 0 < remaining →
      (∀ n, attempt < n → n ≤ attempt + remaining → isFailureOutcome (env n) = true) →
      ∃ m, retryGo env slot remaining attempt le =
        (some emptyBeaconResponse, some m, attempt + remaining) := by
  intro remaining
  induction remaining with
  | zero =>
    intro attempt le h
    omega
  | succ k ih =>
    intro attempt le _ hf
    have hf1 := hf (attempt + 1) (by omega) (by omega)
    cases henv : env (attempt + 1) with
    | validResponse r =>
      rw [henv] at hf1
      simp [isFailureOutcome] at hf1
    | transportError m =>
      cases k with
      | zero =>
        refine ⟨attemptFailMsg (attempt + 1) slot m, ?_⟩
        rw [retryGo_succ, henv]
      | succ k2 =>
        obtain ⟨m2, hm⟩ := ih (attempt + 1)
          (some (attemptFailMsg (attempt + 1) slot m)) (by omega)
          (fun n h1 h2 => hf n (by omega) (by omega))
        have harith : attempt + 1 + (k2 + 1) = attempt + (k2 + 1 + 1) := by omega
        rw [harith] at hm
        refine ⟨m2, ?_⟩
        rw [retryGo_succ, henv]
        exact hm
    | shapeMismatch m =>
      cases k with
      | zero =>
        refine ⟨attemptFailMsg (attempt + 1) slot m, ?_⟩
        rw [retryGo_succ, henv]
      | succ k2 =>
        obtain ⟨m2, hm⟩ := ih (attempt + 1)
          (some (attemptFailMsg (attempt + 1) slot m)) (by omega)
          (fun n h1 h2 => hf n (by omega) (by omega))
        have harith : attempt + 1 + (k2 + 1) = attempt + (k2 + 1 + 1) := by omega
        rw [harith] at hm
        refine ⟨m2, ?_⟩
        rw [retryGo_succ, henv]
        exact hm

/-- One reconciliation step preserves the invariant that the found set
and the versioned hashes of the collected blobs have the same members. -/
lemma reconStep_inv (expected : List String) (derive : String → Except String String)
    (st : ReconState) (sc : RpcBlobSidecar)
    (hinv : ∀ x, x ∈ st.found ↔ x ∈ st.blobs.map FetchedBlob.versionedHash) :
    ∀ x, x ∈ (reconStep expected derive st sc).found ↔
      x ∈ (reconStep expected derive st sc).blobs.map FetchedBlob.versionedHash := by
  intro x
  unfold reconStep
  cases hd : derive sc.kzgCommitment with
  | error m => simpa using hinv x
  | ok dh =>
    by_cases hexp : expected.contains dh
    · simp only [hexp, if_true]
      by_cases hf : st.found.contains dh
      · have hmem : dh ∈ st.found := by simpa using hf
        simp only [hf, if_true, List.map_append, List.mem_append, List.map_cons,
          List.map_nil, List.mem_singleton]
        constructor
        · intro hx
          exact Or.inl ((hinv x).mp hx)
        · rintro (hx | hx)
          · exact (hinv x).mpr hx
          · subst hx
            exact hmem
      · simp only [hf, if_false, Bool.false_eq_true, List.map_append, List.mem_append,
          List.map_cons, List.map_nil, List.mem_singleton]
        rw [hinv x]
    · simp only [hexp, if_false, Bool.false_eq_true]
      exact hinv x

/-- The invariant lifted along the reconciliation fold. -/
lemma foldl_recon_inv (expected : List String) (derive : String → Except String String) :
    ∀ (sidecars : List RpcBlobSidecar) (st : ReconState),
      (∀ x, x ∈ st.found ↔ x ∈ st.blobs.map FetchedBlob.versionedHash) →
      ∀ x, x ∈ (sidecars.foldl (reconStep expected derive) st).found ↔
        x ∈ (sidecars.foldl (reconStep expected derive) st).blobs.map
          FetchedBlob.versionedHash := by
  intro sidecars
  induction sidecars with
  | nil =>
    intro st hinv x
    simpa using hinv x
  | cons sc rest ih =>
    intro st hinv x
    simp only [List.foldl_cons]
    exact ih (reconStep expected derive st sc)
      (reconStep_inv expected derive st sc hinv) x

/-- allExpectedBlobsFound holds iff every expected hash is in the found
set. -/
lemma allExpectedFound_iff (e f : List String) :
    allExpectedFound e f = true ↔ ∀ x ∈ e, x ∈ f := by
  unfold allExpectedFound
  cases e with
  | nil => simp
  | cons a l => simp

/-- Membership in the missing-hashes list. -/
lemma mem_missing_iff (e f : List String) (x : String) :
    x ∈ e.filter (fun y => !f.contains y) ↔ (x ∈ e ∧ x ∉ f) := by
  simp [List.mem_filter]

/-- When not every expected hash was found, finalErrs appends an entry
naming exactly the missing hashes, and that list is non-empty. -/
lemma finalErrs_missing (e f : List String) (errs : List ErrEntry)
    (h : allExpectedFound e f = false) :
    ErrEntry.missingExpected (e.filter (fun y => !f.contains y)) ∈ finalErrs e f errs
    ∧ e.filter (fun y => !f.contains y) ≠ [] := by
  have hne : ¬∀ x ∈ e, x ∈ f := by
    rw [← allExpectedFound_iff, h]
    simp
  push_neg at hne
  obtain ⟨x, hx, hxf⟩ := hne
  have hxmem : x ∈ e.filter (fun y => !f.contains y) :=
    (mem_missing_iff e f x).mpr ⟨hx, hxf⟩
  have hlen : 0 < e.length := by
    cases e with
    | nil => simp at hx
    | cons a l => simp
  refine ⟨?_, List.ne_nil_of_mem hxmem⟩
  unfold finalErrs
  rw [h]
  simp [hlen]

/-- If fetchBlobsForJob returns Ok, the result is the built resultData
for the sidecars of some shape-valid response. -/
lemma fetchBlobsForJob_ok (cfg : BlobFetcherConfig) (job : ProcessingJob)
    (gb : Except String Nat) (env : Nat → AttemptOutcome)
    (derive : String → Except String String) (r : FetchedTransactionBlobs)
    (attempts : Nat)
    (h : fetchBlobsForJob cfg job gb env derive = (.ok r, attempts)) :
    ∃ resp : BeaconApiGetBlobSidecarsResponse,
      r = buildResult job
        (reconcileSidecars job.blobVersionedHashes derive (resp.data.map mapSidecar)) := by
  unfold fetchBlobsForJob at h
  split at h
  · simp at h
  · split at h
    · simp at h
    · split at h
      · simp at h
      · split at h
        · simp at h
        · rename_i resp lastErr att heq hcond
          exact ⟨resp, (Except.ok.inj ((Prod.mk.injEq _ _ _ _).mp h).1).symm⟩

/-- C2.  For every job and fetched sidecar set that produce an Ok
result, allBlobsFound is true iff every expected hash is among the
derived versioned hashes of the constructed FetchedBlobs, vacuously true
for an empty expected list, and when it is false the error list contains
an entry naming exactly the missing hashes. -/
theorem fetcher_allFound_iff (cfg : BlobFetcherConfig) (job : ProcessingJob)
    (gb : Except String Nat) (env : Nat → AttemptOutcome)
    (derive : String → Except String String) (r : FetchedTransactionBlobs)
    (h : (fetchBlobsForJob cfg job gb env derive).1 = .ok r) :
    (r.allBlobsFound = true ↔
      ∀ vh ∈ job.blobVersionedHashes, vh ∈ r.fetchedBlobs.map FetchedBlob.versionedHash)
    ∧ (job.blobVersionedHashes = [] → r.allBlobsFound = true)
    ∧ (r.allBlobsFound = false →
        ∃ missing, missing ≠ [] ∧ ErrEntry.missingExpected missing ∈ r.errors.getD [] ∧
          ∀ vh, vh ∈ missing ↔
            (vh ∈ job.blobVersionedHashes ∧
             vh ∉ r.fetchedBlobs.map FetchedBlob.versionedHash)) := by
  rcases hfull : fetchBlobsForJob cfg job gb env derive with ⟨res, att⟩
  rw [hfull] at h
  simp only at h
  subst h
  obtain ⟨resp, hre⟩ := fetchBlobsForJob_ok cfg job gb env derive _ att hfull
  subst hre
  have hfd : ∀ x,
      x ∈ (reconcileSidecars job.blobVersionedHashes derive (resp.data.map mapSidecar)).found ↔
      x ∈ ((reconcileSidecars job.blobVersionedHashes derive
        (resp.data.map mapSidecar)).blobs.map FetchedBlob.versionedHash) := by
    unfold reconcileSidecars
    exact foldl_recon_inv job.blobVersionedHashes derive (resp.data.map mapSidecar)
      { blobs := [], found := [], errs := [] } (by simp)
  refine ⟨?_, ?_, ?_⟩
  · show allExpectedFound job.blobVersionedHashes _ = true ↔ _
    rw [allExpectedFound_iff]
    constructor
    · intro hall vh hvh
      exact (hfd vh).mp (hall vh hvh)
    · intro hall vh hvh
      exact (hfd vh).mpr (hall vh hvh)
  · intro hE
    show allExpectedFound job.blobVersionedHashes _ = true
    rw [hE]
    rfl
  · intro hfalse
    have hfalse2 : allExpectedFound job.blobVersionedHashes
        (reconcileSidecars job.blobVersionedHashes derive
          (resp.data.map mapSidecar)).found = false := hfalse
    obtain ⟨hmem, hne⟩ := finalErrs_missing job.blobVersionedHashes _
      (reconcileSidecars job.blobVersionedHashes derive (resp.data.map mapSidecar)).errs
      hfalse2
    have hlen : 0 < (finalErrs job.blobVersionedHashes
        (reconcileSidecars job.blobVersionedHashes derive (resp.data.map mapSidecar)).found
        (reconcileSidecars job.blobVersionedHashes derive
          (resp.data.map mapSidecar)).errs).length :=
      List.length_pos.mpr (List.ne_nil_of_mem hmem)
    refine ⟨job.blobVersionedHashes.filter
      (fun y => !(reconcileSidecars job.blobVersionedHashes derive
        (resp.data.map mapSidecar)).found.contains y), hne, ?_, ?_⟩
    · show ErrEntry.missingExpected _ ∈
        (if 0 < (finalErrs job.blobVersionedHashes _ _).length
         then some (finalErrs job.blobVersionedHashes _ _) else none).getD []
      rw [if_pos hlen]
      simpa using hmem
    · intro vh
      rw [mem_missing_iff]
      constructor
      · rintro ⟨hv1, hv2⟩
        exact ⟨hv1, fun hc => hv2 ((hfd vh).mpr hc)⟩
      · rintro ⟨hv1, hv2⟩
        exact ⟨hv1, fun hc => hv2 ((hfd vh).mp hc)⟩

/-- Witness job matching the spec example: two expected hashes. -/
def jobW : ProcessingJob :=
  { blockNumber := 10, blockHash := "0xb", timestamp := 1700000000, txHash := "0xt",
    fromAddr := "0xf", blobVersionedHashes := ["0xh1", "0xh2"], l2Source := "base" }

/-- Witness response: two sidecars, one unprefixed, whose commitments
derive to 0xh1 and 0xh3. -/
def respW : BeaconApiGetBlobSidecarsResponse :=
  { version := "deneb", execution_optimistic := false, finalized := false,
    data := [ { index := "0", blob := "aa", kzg_commitment := "c1", kzg_proof := "p1" },
              { index := "1", blob := "0xbb", kzg_commitment := "0xc3", kzg_proof := "0xp3" } ] }

/-- Witness derivation: commitment 0xc1 derives to 0xh1, everything else
to 0xh3. -/
def deriveW : String → Except String String :=
  fun c => if c = "0xc1" then .ok "0xh1" else .ok "0xh3"

/-- Witness REST environment: every attempt succeeds with respW. -/
def envW1 : Nat → AttemptOutcome := fun _ => .validResponse respW

/-- The result the fetcher builds for jobW against respW. -/
def c2r : FetchedTransactionBlobs :=
  buildResult jobW
    (reconcileSidecars jobW.blobVersionedHashes deriveW (respW.data.map mapSidecar))

/-- Witness for fetcher_allFound_iff: the spec example, expected
[0xh1, 0xh2] with sidecars deriving to [0xh1, 0xh3]. -/
theorem fetcher_allFound_iff_witness :
    (c2r.allBlobsFound = true ↔
      ∀ vh ∈ jobW.blobVersionedHashes, vh ∈ c2r.fetchedBlobs.map FetchedBlob.versionedHash)
    ∧ (jobW.blobVersionedHashes = [] → c2r.allBlobsFound = true)
    ∧ (c2r.allBlobsFound = false →
        ∃ missing, missing ≠ [] ∧ ErrEntry.missingExpected missing ∈ c2r.errors.getD [] ∧
          ∀ vh, vh ∈ missing ↔
            (vh ∈ jobW.blobVersionedHashes ∧
             vh ∉ c2r.fetchedBlobs.map FetchedBlob.versionedHash)) :=
  fetcher_allFound_iff defaultFetcherConfigValues jobW (.ok 1700000000) envW1 deriveW c2r
    (by rfl)

/-- A failed attempt followed by more allowed attempts recurses with the
recorded last error. -/
lemma retryGo_fail_step (env : Nat → AttemptOutcome) (slot : Nat)
    (k2 attempt : Nat) (le : Option String) (m : String)
    (h : env (attempt + 1) = .transportError m ∨ env (attempt + 1) = .shapeMismatch m) :
    retryGo env slot (k2 + 1 + 1) attempt le =
      retryGo env slot (k2 + 1) (attempt + 1)
        (some (attemptFailMsg (attempt + 1) slot m)) := by
  rw [retryGo_succ]
  rcases h with h | h <;> rw [h]

/-- A valid attempt ends the loop with that response. -/
lemma retryGo_valid_step (env : Nat → AttemptOutcome) (slot : Nat)
    (k attempt : Nat) (le : Option String) (resp : BeaconApiGetBlobSidecarsResponse)
    (h : env (attempt + 1) = .validResponse resp) :
    retryGo env slot (k + 1) attempt le = (some resp, le, attempt + 1) := by
  rw [retryGo_succ, h]

/-- C4.  The retry loop makes at most retryCount attempts; transport
errors and shape mismatches are treated identically (transposing them
pointwise leaves the loop result unchanged); with retryCount 3, two
failed attempts followed by a shape-valid third response with data make
the fetch succeed using that third response after exactly 3 attempts;
and when all 3 attempts fail and the job expects at least one blob, the
fetch returns an error result to the caller after 3 attempts. -/
theorem fetcher_retry_behavior (cfg : BlobFetcherConfig) (env : Nat → AttemptOutcome)
    (slot : Nat) (job : ProcessingJob) (derive : String → Except String String)
    (ts : Nat) :
    (runRetryLoop env slot cfg.retryCount).2.2 ≤ cfg.retryCount
    ∧ runRetryLoop (fun n => swapKind (env n)) slot cfg.retryCount =
        runRetryLoop env slot cfg.retryCount
    ∧ (∀ m1 m2 resp, cfg.retryCount = 3 → MERGE_TIMESTAMP ≤ ts →
        (env 1 = .transportError m1 ∨ env 1 = .shapeMismatch m1) →
        (env 2 = .transportError m2 ∨ env 2 = .shapeMismatch m2) →
        env 3 = .validResponse resp → resp.data ≠ [] →
        fetchBlobsForJob cfg job (.ok ts) env derive =
          (.ok (buildResult job (reconcileSidecars job.blobVersionedHashes derive
              (resp.data.map mapSidecar))), 3))
    ∧ (cfg.retryCount = 3 → MERGE_TIMESTAMP ≤ ts → job.blobVersionedHashes ≠ [] →
        (∀ n, 1 ≤ n → n ≤ 3 → isFailureOutcome (env n) = true) →
        ∃ m, fetchBlobsForJob cfg job (.ok ts) env derive =
          (.error (.sidecarsFetchFailed (some m)), 3)) := by
  refine ⟨?_, ?_, ?_, ?_⟩
  · simpa using retryGo_attempts_le env slot cfg.retryCount 0 none
  · exact retryGo_swapKind env slot cfg.retryCount 0 none
  · intro m1 m2 resp hrc hts h1 h2 h3 hdata
    have hrs : resolveSlot ts = .ok (slotValue ts) := by
      unfold resolveSlot
      rw [if_neg (by omega)]
    have e1 : retryGo env (slotValue ts) 3 0 none =
        retryGo env (slotValue ts) 2 1 (some (attemptFailMsg 1 (slotValue ts) m1)) :=
      retryGo_fail_step env (slotValue ts) 1 0 none m1 h1
    have e2 : retryGo env (slotValue ts) 2 1 (some (attemptFailMsg 1 (slotValue ts) m1)) =
        retryGo env (slotValue ts) 1 2 (some (attemptFailMsg 2 (slotValue ts) m2)) :=
      retryGo_fail_step env (slotValue ts) 0 1 _ m2 h2
    have e3 : retryGo env (slotValue ts) 1 2 (some (attemptFailMsg 2 (slotValue ts) m2)) =
        (some resp, some (attemptFailMsg 2 (slotValue ts) m2), 3) :=
      retryGo_valid_step env (slotValue ts) 0 2 _ resp h3
    have hloop : runRetryLoop env (slotValue ts) cfg.retryCount =
        (some resp, some (attemptFailMsg 2 (slotValue ts) m2), 3) := by
      rw [hrc]
      exact e1.trans (e2.trans e3)
    have hde : resp.data.isEmpty = false := by
      simpa [List.isEmpty_iff] using hdata
    simp only [fetchBlobsForJob, hrs, hloop, hde, Bool.false_and, Bool.false_eq_true,
      if_false]
  · intro hrc hts hexp hf
    have hrs : resolveSlot ts = .ok (slotValue ts) := by
      unfold resolveSlot
      rw [if_neg (by omega)]
    obtain ⟨m, hm⟩ := retryGo_all_fail env (slotValue ts) 3 0 none (by omega)
      (fun n h1n h2n => hf n (by omega) (by omega))
    have hloop : runRetryLoop env (slotValue ts) cfg.retryCount =
        (some emptyBeaconResponse, some m, 3) := by
      rw [hrc]
      exact hm
    have hje : job.blobVersionedHashes.isEmpty = false := by
      simpa [List.isEmpty_iff] using hexp
    refine ⟨m, ?_⟩
    simp only [fetchBlobsForJob, hrs, hloop, hje, emptyBeaconResponse]
    rfl

/-- Witness REST environment for the retry examples: attempts 1 and 2
fail at the transport level, attempt 3 succeeds with respW. -/
def envW3 : Nat → AttemptOutcome :=
  fun n => if n = 3 then .validResponse respW else .transportError "boom"

/-- Witness for fetcher_retry_behavior: with retryCount 3, two transport
failures followed by a valid third response make the fetch succeed with
that response after 3 attempts. -/
theorem fetcher_retry_behavior_witness :
    (runRetryLoop envW3 4700013 defaultFetcherConfigValues.retryCount).2.2 ≤
      defaultFetcherConfigValues.retryCount
    ∧ fetchBlobsForJob defaultFetcherConfigValues jobW (.ok 1700000000) envW3 deriveW =
        (.ok (buildResult jobW (reconcileSidecars jobW.blobVersionedHashes deriveW
            (respW.data.map mapSidecar))), 3) := by
  have h := fetcher_retry_behavior defaultFetcherConfigValues envW3 4700013 jobW deriveW
    1700000000
  exact ⟨h.1, h.2.2.1 "boom" "boom" respW rfl (by decide) (Or.inl rfl) (Or.inl rfl)
    rfl (by decide)⟩

/-- C7.  A pre-merge block timestamp makes the fetch fail immediately
with the slot-calculation error and zero REST attempts; slot resolution
fails exactly for such timestamps; and for any other timestamp the fetch
never returns a slot-calculation failure. -/
theorem fetcher_premerge_terminal (cfg : BlobFetcherConfig) (job : ProcessingJob)
    (env : Nat → AttemptOutcome) (derive : String → Except String String) (ts : Nat) :
    (ts < MERGE_TIMESTAMP →
      fetchBlobsForJob cfg job (.ok ts) env derive =
        (.error (.slotCalcFailed "pre-merge block has no blob data"), 0))
    ∧ ((∃ e, resolveSlot ts = .error e) ↔ ts < MERGE_TIMESTAMP)
    ∧ (MERGE_TIMESTAMP ≤ ts →
        ∀ msg attempts, fetchBlobsForJob cfg job (.ok ts) env derive ≠
          (.error (.slotCalcFailed msg), attempts)) := by
  refine ⟨?_, ?_, ?_⟩
  · intro h
    have hrs : resolveSlot ts = .error "pre-merge block has no blob data" := by
      unfold resolveSlot
      rw [if_pos h]
    simp only [fetchBlobsForJob, hrs]
  · constructor
    · rintro ⟨e, he⟩
      by_contra hc
      rw [resolveSlot, if_neg hc] at he
      exact Except.noConfusion he
    · intro h
      refine ⟨"pre-merge block has no blob data", ?_⟩
      rw [resolveSlot, if_pos h]
  · intro hts msg attempts hcontra
    have hrs : resolveSlot ts = .ok (slotValue ts) := by
      unfold resolveSlot
      rw [if_neg (by omega)]
    simp only [fetchBlobsForJob, hrs] at hcontra
    rcases hr : runRetryLoop env (slotValue ts) cfg.retryCount with ⟨ro, le, att⟩
    rw [hr] at hcontra
    cases ro with
    | none => simp at hcontra
    | some resp =>
      by_cases hcond : resp.data.isEmpty && !job.blobVersionedHashes.isEmpty && le.isSome
      · simp [hcond] at hcontra
      · simp [hcond] at hcontra

/-- Witness for fetcher_premerge_terminal at timestamp 0 (pre-merge):
the fetch fails immediately with zero attempts. -/
theorem fetcher_premerge_terminal_witness :
    fetchBlobsForJob defaultFetcherConfigValues jobW (.ok 0) envW1 deriveW =
      (.error (.slotCalcFailed "pre-merge block has no blob data"), 0)
    ∧ ((∃ e, resolveSlot 0 = .error e) ↔ 0 < MERGE_TIMESTAMP) := by
  have h := fetcher_premerge_terminal defaultFetcherConfigValues jobW envW1 deriveW 0
  exact ⟨h.1 (by decide), h.2.1⟩

/-- C9 (code bug).  The result object that fetcher.ts builds omits the
`slot` and `to` keys that its declared type FetchedTransactionBlobs
requires and that the spec says are echoed: for every job and
reconciliation state the built result has no slot and no destination
address, while the other job-context fields are echoed; evaluated at a
concrete successful fetch, the Ok result carries slot = none and
toAddr = none. -/
theorem fetch_result_omits_slot_and_to :
    (∀ (job : ProcessingJob) (st : ReconState),
      (buildResult job st).slot = none ∧
      (buildResult job st).toAddr = none ∧
      (buildResult job st).transactionHash = job.txHash ∧
      (buildResult job st).blockNumber = job.blockNumber ∧
      (buildResult job st).blockHash = job.blockHash ∧
      (buildResult job st).timestamp = job.timestamp ∧
      (buildResult job st).fromAddr = job.fromAddr ∧
      (buildResult job st).l2Source = job.l2Source ∧
      (buildResult job st).expectedBlobVersionedHashes = job.blobVersionedHashes)
    ∧ ((fetchBlobsForJob defaultFetcherConfigValues jobW (.ok 1700000000) envW1
          deriveW).1.toOption.map (fun r => (r.slot, r.toAddr))) = some (none, none) :=
  ⟨fun job st => ⟨rfl, rfl, rfl, rfl, rfl, rfl, rfl, rfl, rfl⟩, by rfl⟩
